import Mathlib

/-!
# Verification of the `bevy_llm` async-to-sync bridging core

Shallow embedding of `src/lib.rs` (crate `bevy_llm`): the background-task
producer algorithm of `spawn_chat_requests`, the pure history reconciliation
`merge_memory_with_final`, the bounded delivery inbox (`StreamInbox` /
`push_inbox`), and the per-tick consumer `drain_stream_inbox`.

Modelling conventions:
* `Entity` (a bevy entity id) is modelled as `Nat`.
* `ToolCall` (from the external `llm` crate) is an opaque payload; its
  structure is irrelevant to every property here, so it is modelled as
  `String`.
* Rust `String` is Lean `String`; `Vec<T>` is `List T`; `Option<T>` is
  `Option T`; a `Result`-returning call is `Except String _`.
* Wall-clock time (`Instant::now` / `duration_since(last_flush) >= 16ms` in
  the coalescing check) is modelled by an oracle `timeHit : Nat → Bool`
  consulted at the i-th content-fragment check; quantifying over all oracles
  covers every possible timing outcome.
* `buf.len() >= MIN_CHARS` compares byte length in Rust; it is modelled as
  character count.  Every property proved below is insensitive to the unit
  (the claims hold for every outcome of the size/time thresholds).
-/

namespace BevyLlm

/-- Entity id (bevy `Entity`). -/
abbrev Entity := Nat

/-- Opaque tool-call payload (`llm::ToolCall`); contents never inspected. -/
abbrev ToolCall := String

/-- `llm::chat::ChatRole` (roles used by the wrapper / spec data model). -/
inductive ChatRole where
  | user
  | assistant
  | system
deriving DecidableEq, Repr

/-- `llm::chat::ChatMessage`, restricted to the fields the core reads
(`role`, `content`). -/
structure ChatMessage where
  role : ChatRole
  content : String
deriving DecidableEq, Repr

/-- `ChatMessage::assistant().content(t).build()` (lib.rs:191). -/
def ChatMessage.assistantText (t : String) : ChatMessage :=
  { role := ChatRole.assistant, content := t }

/-- `StreamMsg` (lib.rs:159-166): tagged message from a background task to
the drain system. -/
inductive StreamMsg where
  | Begin (entity : Entity)
  | Delta (entity : Entity) (text : String)
  | Tool  (entity : Entity) (calls : List ToolCall)
  | Done  (entity : Entity) (final_text : Option String)
          (memory : Option (List ChatMessage))
  | Err   (entity : Entity) (error : String)
deriving DecidableEq, Repr

/-- The snapshot's last entry is already an assistant message with exactly
content `t`.  This is the negation of `need_append` at lib.rs:186-189
(with `mem.last() == None` giving `need_append = true`). -/
def lastIsAssistant (m : List ChatMessage) (t : String) : Prop :=
  match m.getLast? with
  | some last => last.role = ChatRole.assistant ∧ last.content = t
  | none => False

instance (m : List ChatMessage) (t : String) : Decidable (lastIsAssistant m t) := by
  unfold lastIsAssistant
  cases m.getLast? with
  | none => exact inferInstanceAs (Decidable False)
  | some last => exact inferInstanceAs (Decidable (_ ∧ _))

/-- `merge_memory_with_final` (lib.rs:176-195): repair a possibly-stale
memory snapshot with the turn's final text. -/
def merge_memory_with_final (mem : Option (List ChatMessage))
    (final_text : Option String) : Option (List ChatMessage) :=
  match mem with
  | none => none
  | some m =>
    if m = [] then
      -- `_ => return None` branch: keep ui state; don't replace with empty
      none
    else
      match final_text with
      | none => some m
      | some t =>
        if t = "" then some m
        else if lastIsAssistant m t then some m
        else some (m ++ [ChatMessage.assistantText t])

/-! ## Background-task producer (`spawn_chat_requests`, lib.rs:259-389) -/

/-- `llm::chat::StreamDelta`: one incremental delta of a structured stream. -/
structure StreamDelta where
  content : Option String
  tool_calls : Option (List ToolCall)
deriving DecidableEq, Repr

/-- `llm::chat::StreamChoice`. -/
structure StreamChoice where
  delta : StreamDelta
deriving DecidableEq, Repr

/-- `llm::chat::StreamResponse`, restricted to the `choices` field the
producer destructures (lib.rs:304). -/
structure StreamResponse where
  choices : List StreamChoice
deriving DecidableEq, Repr

/-- One item yielded by the structured stream `s.next().await`
(lib.rs:302): a response or a mid-stream error. -/
abbrev StreamItem := Except String StreamResponse

/-- `MIN_CHARS` (lib.rs:298). -/
def MIN_CHARS : Nat := 64

/-- Local state of the streaming loop (lib.rs:296-301): the accumulated
text, the coalescing buffer, and a counter indexing the time oracle (one
index per `now.duration_since(last_flush) >= MAX_LATENCY` check). -/
structure ProdState where
  last_text : String
  buf : String
  tick : Nat
deriving DecidableEq, Repr

/-- Initial loop state (`last_text`, `buf` empty; lib.rs:296,300). -/
def initProdState : ProdState := { last_text := "", buf := "", tick := 0 }

/-- Process one `StreamChoice` of a chunk (lib.rs:305-322): append a
non-empty content fragment to `last_text` and `buf`, flush the buffer as a
`Delta` when `buf.len() >= MIN_CHARS` or the 16&nbsp;ms latency elapsed
(oracle `timeHit`), and emit a non-empty `tool_calls` list immediately as
`Tool`. -/
def procChoice (e : Entity) (timeHit : Nat → Bool) (st : ProdState)
    (c : StreamChoice) : ProdState × List StreamMsg :=
  let (st1, ms1) :=
    match c.delta.content with
    | some txt =>
      if txt = "" then (st, [])
      else
        let last_text := st.last_text ++ txt
        let buf := st.buf ++ txt
        if MIN_CHARS ≤ buf.length ∨ timeHit st.tick = true then
          ({ last_text := last_text, buf := "", tick := st.tick + 1 },
            [StreamMsg.Delta e buf])
        else
          ({ last_text := last_text, buf := buf, tick := st.tick + 1 }, [])
    | none => (st, [])
  let ms2 :=
    match c.delta.tool_calls with
    | some calls => if calls = [] then [] else [StreamMsg.Tool e calls]
    | none => []
  (st1, ms1 ++ ms2)

/-- Process the `choices` of one chunk in order (the `for` loop at
lib.rs:305). -/
def procChoices (e : Entity) (timeHit : Nat → Bool) (st : ProdState) :
    List StreamChoice → ProdState × List StreamMsg
  | [] => (st, [])
  | c :: cs =>
    let (st1, ms1) := procChoice e timeHit st c
    let (st2, ms2) := procChoices e timeHit st1 cs
    (st2, ms1 ++ ms2)

/-- Filter applied to a raw `memory_contents()` result (lib.rs:279-282 and
341-344): keep the snapshot only when non-empty. -/
def memFilter (mem : Option (List ChatMessage)) : Option (List ChatMessage) :=
  mem.bind (fun m => if m = [] then none else some m)

/-- `final_text` computed from an accumulated/one-shot text
(lib.rs:288,346,369): `None` when empty. -/
def finalTextOf (text : String) : Option String :=
  if text = "" then none else some text

/-- The streaming consumption loop (lib.rs:302-348), one call per remaining
stream item, plus the clean-end epilogue (flush tail, snapshot memory,
reconcile, emit `Done`) and the mid-stream-error exit (flush non-empty
buffer, emit `Err`, return). Returns the messages pushed into the inbox
from state `st` on. -/
def runItems (e : Entity) (timeHit : Nat → Bool)
    (memory_contents : Option (List ChatMessage)) (st : ProdState) :
    List StreamItem → List StreamMsg
  | [] =>
    (if st.buf = "" then [] else [StreamMsg.Delta e st.buf])
      ++ [StreamMsg.Done e (finalTextOf st.last_text)
            (merge_memory_with_final (memFilter memory_contents)
              (finalTextOf st.last_text))]
  | Except.error err :: _ =>
    (if st.buf = "" then [] else [StreamMsg.Delta e st.buf])
      ++ [StreamMsg.Err e err]
  | Except.ok r :: rest =>
    let (st1, ms) := procChoices e timeHit st r.choices
    ms ++ runItems e timeHit memory_contents st1 rest

/-- The backend capability as the producer observes it in one turn:
the outcome of `chat_stream_struct` (setup error, or the list of stream
items), the outcome of `chat` (`resp.text()` is an `Option String`), and
the `memory_contents()` snapshot. -/
structure Provider where
  chat_stream_struct : Except String (List StreamItem)
  chat : Except String (Option String)
  memory_contents : Option (List ChatMessage)

/-- The one-shot path: `provider.chat(...)` followed by `Begin`, an
optional single `Delta`, and `Done` — or a single `Err` on failure.  The
code has two textually identical copies: the streaming fallback
(lib.rs:270-292) and the non-streaming branch (lib.rs:353-372). -/
def one_shot_turn (e : Entity) (p : Provider) : List StreamMsg :=
  match p.chat with
  | Except.error err => [StreamMsg.Err e err]
  | Except.ok resp =>
    let text := resp.getD ""
    [StreamMsg.Begin e]
      ++ (if text = "" then [] else [StreamMsg.Delta e text])
      ++ [StreamMsg.Done e (finalTextOf text)
            (merge_memory_with_final (memFilter p.memory_contents)
              (finalTextOf text))]

/-- One whole dispatched turn (the async block at lib.rs:260-375): the
sequence of messages the background task pushes into the inbox. -/
def runTurn (e : Entity) (p : Provider) (stream : Bool)
    (timeHit : Nat → Bool) : List StreamMsg :=
  if stream then
    match p.chat_stream_struct with
    | Except.error _ => one_shot_turn e p
    | Except.ok items =>
      StreamMsg.Begin e :: runItems e timeHit p.memory_contents initProdState items
  else
    one_shot_turn e p

/-! ## Delivery inbox (`StreamInbox`, lib.rs:145-171)

The inbox is `flume::bounded(2048)` (lib.rs:153).  Its queue is modelled as
a FIFO `List StreamMsg` (front = oldest).  `push_inbox` (lib.rs:169-171)
calls `flume::Sender::send`, whose documented semantics on a bounded
channel are: block until space is available when the channel is full (only
a disconnected receiver yields an `Err`).  A blocking call has no completed
transition without consumer help, so `flumeSend` returns `none` ("would
block") on a full queue.  `try_send`-style drop-on-full semantics — what
the comment at lib.rs:168 ("ignore full/disconnected") and the spec
describe — are modelled separately for comparison. -/

/-- Inbox capacity (`flume::bounded(2048)`, lib.rs:153). -/
def INBOX_CAPACITY : Nat := 2048

/-- `flume::Sender::send` on the bounded inbox, as a single step: `some`
updated queue when there is space, `none` when the push cannot complete
without blocking (queue full). -/
def flumeSend (q : List StreamMsg) (m : StreamMsg) : Option (List StreamMsg) :=
  if q.length < INBOX_CAPACITY then some (q ++ [m]) else none

/-- Modelled from the spec: the non-blocking drop-on-full push the spec
(§4.4) and the code's own comment at lib.rs:168 describe for `push_inbox`
("push fails silently and the message is dropped rather than blocking").
This is `flume::Sender::try_send`'s behaviour, which the code does not use. -/
def push_inbox_spec (q : List StreamMsg) (m : StreamMsg) : List StreamMsg :=
  if q.length < INBOX_CAPACITY then q ++ [m] else q

/-! ## Drain & aggregate (`drain_stream_inbox`, lib.rs:393-443) -/

/-- Outward notifications (the four event kinds written by the drain
system): `ChatDeltaEvt`, `ChatToolCallsEvt`, `ChatCompletedEvt`,
`ChatErrorEvt` (lib.rs:119-141); the spec names them TextAppended,
ToolCallsReceived, Completed, Failed. -/
inductive Notification where
  | TextAppended (entity : Entity) (text : String)
  | ToolCallsReceived (entity : Entity) (calls : List ToolCall)
  | Completed (entity : Entity) (final_text : Option String)
              (memory : Option (List ChatMessage))
  | Failed (entity : Entity) (error : String)
deriving DecidableEq, Repr

/-- `MAX_PER_FRAME` (lib.rs:401). -/
def MAX_PER_FRAME : Nat := 512

/-- The pop loop (lib.rs:403-409): take up to `MAX_PER_FRAME` messages off
the front of the queue; the rest stay queued in order. -/
def drainPop (queue : List StreamMsg) : List StreamMsg × List StreamMsg :=
  (queue.take MAX_PER_FRAME, queue.drop MAX_PER_FRAME)

/-- Aggregation state (lib.rs:413-416).  `delta_map` is
`HashMap<Entity, String>` modelled as an association list in first-insertion
order; a Rust `HashMap` iterates in an unspecified order, and every
property proved below is insensitive to the order in which distinct
entities are emitted. -/
structure DrainAcc where
  delta_map : List (Entity × String)
  tools : List (Entity × List ToolCall)
  dones : List (Entity × Option String × Option (List ChatMessage))
  errs : List (Entity × String)

/-- `delta_map.entry(entity).or_default().push_str(&text)` (lib.rs:422) on
the association-list model: append to the existing entry, or add a new
entry at the end. -/
def insertAppend : List (Entity × String) → Entity → String →
    List (Entity × String)
  | [], e, t => [(e, t)]
  | (e', s) :: rest, e, t =>
    if e' = e then (e', s ++ t) :: rest else (e', s) :: insertAppend rest e t

/-- One iteration of the aggregation loop (lib.rs:418-428). -/
def accMsg (acc : DrainAcc) (m : StreamMsg) : DrainAcc :=
  match m with
  | StreamMsg.Begin _ => acc
  | StreamMsg.Delta e t => { acc with delta_map := insertAppend acc.delta_map e t }
  | StreamMsg.Tool e calls => { acc with tools := acc.tools ++ [(e, calls)] }
  | StreamMsg.Done e f mem => { acc with dones := acc.dones ++ [(e, f, mem)] }
  | StreamMsg.Err e err => { acc with errs := acc.errs ++ [(e, err)] }

/-- The empty aggregation state. -/
def emptyAcc : DrainAcc := { delta_map := [], tools := [], dones := [], errs := [] }

/-- Aggregate the drained messages and emit notifications in the order of
the four write loops (lib.rs:430-442): all `TextAppended`, then all
`ToolCallsReceived`, then all `Completed`, then all `Failed`. -/
def aggregateDrained (drained : List StreamMsg) : List Notification :=
  let acc := drained.foldl accMsg emptyAcc
  acc.delta_map.map (fun p => Notification.TextAppended p.1 p.2)
    ++ acc.tools.map (fun p => Notification.ToolCallsReceived p.1 p.2)
    ++ acc.dones.map (fun p => Notification.Completed p.1 p.2.1 p.2.2)
    ++ acc.errs.map (fun p => Notification.Failed p.1 p.2)

/-- `drain_stream_inbox` (lib.rs:393-443) on the queue model: returns the
emitted notifications and the messages still queued. -/
def drain_stream_inbox (queue : List StreamMsg) :
    List Notification × List StreamMsg :=
  let (drained, rest) := drainPop queue
  if drained = [] then ([], rest)
  else (aggregateDrained drained, rest)

/-! ## Spec-side observables used in theorem statements -/

/-- A terminal delivery message: `Done` or `Err`. -/
def isTerminal : StreamMsg → Bool
  | StreamMsg.Done _ _ _ => true
  | StreamMsg.Err _ _ => true
  | _ => false

/-- Concatenation of a list of strings (in order). -/
def strJoin : List String → String
  | [] => ""
  | s :: r => s ++ strJoin r

/-- The texts of the `Delta` messages of a message list, in order. -/
def deltaTexts (msgs : List StreamMsg) : List String :=
  msgs.filterMap (fun m => match m with
    | StreamMsg.Delta _ t => some t
    | _ => none)

/-- The non-empty content fragments carried by a list of stream items, in
arrival order (errors carry no content). -/
def fragments (items : List StreamItem) : List String :=
  items.flatMap (fun it => match it with
    | Except.ok r =>
      (r.choices.filterMap (fun c => c.delta.content)).filter (fun s => s ≠ "")
    | Except.error _ => [])

/-- A stream item that is not an error. -/
def isOkItem : StreamItem → Bool
  | Except.ok _ => true
  | Except.error _ => false

/-- The text of a `Delta` message for entity `e` (and `none` otherwise). -/
def deltaTextFor (e : Entity) : StreamMsg → Option String
  | StreamMsg.Delta e' t => if e' = e then some t else none
  | _ => none

/-- Concatenation, in arrival order, of the texts of the `Delta` messages
belonging to entity `e`. -/
def deltaConcat (e : Entity) (msgs : List StreamMsg) : String :=
  strJoin (msgs.filterMap (deltaTextFor e))

/-- Whether some `Delta` message for entity `e` occurs in the list. -/
def hasDeltaFor (e : Entity) (msgs : List StreamMsg) : Bool :=
  msgs.any (fun m => (deltaTextFor e m).isSome)

/-- The entities of the `Delta` messages of a list, each kept at its first
occurrence, in order. -/
def deltaEntities : List StreamMsg → List Entity
  | [] => []
  | StreamMsg.Delta e _ :: ms => e :: (deltaEntities ms).filter (fun x => x ≠ e)
  | _ :: ms => deltaEntities ms

/-- The payload of a `Tool` message. -/
def toolOf : StreamMsg → Option (Entity × List ToolCall)
  | StreamMsg.Tool e calls => some (e, calls)
  | _ => none

/-- The payload of a `Done` message. -/
def doneOf : StreamMsg → Option (Entity × Option String × Option (List ChatMessage))
  | StreamMsg.Done e f mem => some (e, f, mem)
  | _ => none

/-- The payload of an `Err` message. -/
def errOf : StreamMsg → Option (Entity × String)
  | StreamMsg.Err e err => some (e, err)
  | _ => none

/-- Whether a message is a `Delta` for entity `e`. -/
def isDeltaFor (e : Entity) (m : StreamMsg) : Bool :=
  (deltaTextFor e m).isSome

/-- Whether a message is a `Begin`. -/
def isBeginMsg : StreamMsg → Bool
  | StreamMsg.Begin _ => true
  | _ => false

/-- Invariant shape of the drain's `delta_map` fold: the entries an
association list `dm` grows into after absorbing the `Delta` messages of
`ms` — each existing entry extended by its entity's concatenated delta
text, followed by one entry per new entity in first-arrival order. -/
def mergeSpec : List (Entity × String) → List StreamMsg → List (Entity × String)
  | [], ms => (deltaEntities ms).map (fun e => (e, deltaConcat e ms))
  | (k, s) :: rest, ms =>
    (k, s ++ deltaConcat k ms)
      :: mergeSpec rest (ms.filter (fun m => !(isDeltaFor k m)))

/-- Whether a notification is a `TextAppended` for entity `e`. -/
def isTextFor (e : Entity) : Notification → Bool
  | Notification.TextAppended e' _ => e' = e
  | _ => false

/-- Notification kind predicates (for grouping statements). -/
def isTextNotif : Notification → Bool
  | Notification.TextAppended _ _ => true
  | _ => false

/-- Whether a notification is a `ToolCallsReceived`. -/
def isToolNotif : Notification → Bool
  | Notification.ToolCallsReceived _ _ => true
  | _ => false

/-- Whether a notification is a `Completed`. -/
def isDoneNotif : Notification → Bool
  | Notification.Completed _ _ _ => true
  | _ => false

/-- Whether a notification is a `Failed`. -/
def isErrNotif : Notification → Bool
  | Notification.Failed _ _ => true
  | _ => false

/-- Rank of a notification kind in the drain's emission order
(lib.rs:430-442). -/
def kindRank : Notification → Nat
  | Notification.TextAppended _ _ => 0
  | Notification.ToolCallsReceived _ _ => 1
  | Notification.Completed _ _ _ => 2
  | Notification.Failed _ _ => 3

/-- The state and emitted messages after consuming a prefix of stream
items that contains no error (used to decompose a run around its first
mid-stream error). -/
def runOkPrefix (e : Entity) (timeHit : Nat → Bool) (st : ProdState) :
    List StreamItem → ProdState × List StreamMsg
  | [] => (st, [])
  | Except.ok r :: rest =>
    let (st1, ms1) := procChoices e timeHit st r.choices
    let (st2, ms2) := runOkPrefix e timeHit st1 rest
    (st2, ms1 ++ ms2)
  | Except.error _ :: _ => (st, [])

/-! ## General lemmas -/

theorem strJoin_append (a b : List String) :
    strJoin (a ++ b) = strJoin a ++ strJoin b := by
  induction a with
  | nil => simp [strJoin]
  | cons s r ih => simp [strJoin, ih, String.append_assoc]

theorem strJoin_filter_ne_empty (l : List String) :
    strJoin (l.filter (fun s => s ≠ "")) = strJoin l := by
  induction l with
  | nil => rfl
  | cons s r ih =>
    simp only [ne_eq, decide_not] at ih ⊢
    by_cases h : s = ""
    · subst h; simpa [strJoin] using ih
    · simp [strJoin, h, ih]

theorem strJoin_filterMap_id (l : List (Option String)) :
    strJoin (l.filterMap id) = strJoin (l.map (fun o => o.getD "")) := by
  induction l with
  | nil => rfl
  | cons o r ih =>
    cases o with
    | none => simpa [strJoin] using ih
    | some s => simp [strJoin, ih]

/-! ## Claims C4 and C5: memory reconciliation -/

/-- **C4.** `merge_memory_with_final` is pure (a function) and satisfies
the three-case specification: absent/empty snapshot gives absent; a
non-empty snapshot with a non-empty final text whose last entry is not
already that assistant message gets the assistant message appended; every
other case returns the snapshot unchanged. -/
theorem merge_memory_with_final_cases :
    (∀ t : Option String, merge_memory_with_final none t = none) ∧
    (∀ t : Option String, merge_memory_with_final (some []) t = none) ∧
    (∀ (m : List ChatMessage) (t : String), m ≠ [] → t ≠ "" →
      ¬ lastIsAssistant m t →
      merge_memory_with_final (some m) (some t) =
        some (m ++ [ChatMessage.assistantText t])) ∧
    (∀ m : List ChatMessage, m ≠ [] →
      merge_memory_with_final (some m) none = some m) ∧
    (∀ m : List ChatMessage, m ≠ [] →
      merge_memory_with_final (some m) (some "") = some m) ∧
    (∀ (m : List ChatMessage) (t : String), m ≠ [] → lastIsAssistant m t →
      merge_memory_with_final (some m) (some t) = some m) := by
  refine ⟨fun t => rfl, fun t => by cases t <;> rfl,
    ?_, ?_, ?_, ?_⟩
  · intro m t hm ht hlast
    simp [merge_memory_with_final, hm, ht, hlast]
  · intro m hm
    simp [merge_memory_with_final, hm]
  · intro m hm
    simp [merge_memory_with_final, hm]
  · intro m t hm hlast
    by_cases hs : t = ""
    · subst hs
      simp [merge_memory_with_final, hm]
    · simp [merge_memory_with_final, hm, hs, hlast]

/-- Witness for C4: scenario C of the spec,
`reconcile([user:"hi"], "there") = [user:"hi", assistant:"there"]`. -/
theorem merge_memory_with_final_cases_witness :
    merge_memory_with_final
        (some [{ role := ChatRole.user, content := "hi" }]) (some "there") =
      some [{ role := ChatRole.user, content := "hi" },
            { role := ChatRole.assistant, content := "there" }] :=
  merge_memory_with_final_cases.2.2.1
    [{ role := ChatRole.user, content := "hi" }] "there"
    (by decide) (by decide) (by decide)

/-- **C5.** Reconciliation is idempotent:
`reconcile (reconcile s t) t = reconcile s t` for every snapshot and final
text. -/
theorem merge_memory_with_final_idempotent
    (mem : Option (List ChatMessage)) (t : Option String) :
    merge_memory_with_final (merge_memory_with_final mem t) t =
      merge_memory_with_final mem t := by
  cases mem with
  | none => rfl
  | some m =>
    by_cases hm : m = []
    · subst hm
      cases t <;> simp [merge_memory_with_final]
    · cases t with
      | none => simp [merge_memory_with_final, hm]
      | some s =>
        by_cases hs : s = ""
        · subst hs
          simp [merge_memory_with_final, hm]
        · by_cases hlast : lastIsAssistant m s
          · simp [merge_memory_with_final, hm, hs, hlast]
          · have hne : m ++ [ChatMessage.assistantText s] ≠ [] := by simp
            have hlast2 : lastIsAssistant (m ++ [ChatMessage.assistantText s]) s := by
              unfold lastIsAssistant
              rw [List.getLast?_concat]
              exact ⟨rfl, rfl⟩
            simp [merge_memory_with_final, hm, hs, hlast, hne, hlast2]

/-! ## Claim C3: inbox capacity and full-queue push behaviour

`StreamInbox` is `flume::bounded(2048)`, so the capacity part of the claim
matches the code.  But `push_inbox` calls `flume::Sender::send`, which on a
full bounded channel *blocks until space is available* (it only returns
`Err` when the receiver is disconnected); the non-blocking drop-on-full
behaviour described by the claim — and by the code's own comment
"(ignore full/disconnected)" at lib.rs:168 — is `try_send`, which the code
does not call.  The theorem exhibits the divergence at a full inbox. -/

/-- **C3 (code bug).** At a full inbox (2048 queued messages) the actual
push (`flumeSend`, flume's `send`) cannot complete without blocking
(`none`), while the claimed behaviour (`push_inbox_spec`, drop-on-full)
returns with the queue unchanged and the message dropped. -/
theorem push_inbox_full_blocks_not_drops :
    flumeSend (List.replicate 2048 (StreamMsg.Begin 0)) (StreamMsg.Begin 0)
        = none ∧
      push_inbox_spec (List.replicate 2048 (StreamMsg.Begin 0))
          (StreamMsg.Begin 0)
        = List.replicate 2048 (StreamMsg.Begin 0) := by
  have hlen : (List.replicate 2048 (StreamMsg.Begin 0)).length = 2048 :=
    List.length_replicate _ _
  have hnot : ¬ (2048 < INBOX_CAPACITY) := by
    unfold INBOX_CAPACITY
    omega
  constructor
  · unfold flumeSend
    rw [hlen, if_neg hnot]
  · unfold push_inbox_spec
    rw [hlen, if_neg hnot]

/-! ## Claim C9: drain cap and leftover order -/

/-- **C9.** Each drain invocation pops at most `MAX_PER_FRAME = 512`
messages off the front of the queue; the leftover stays queued unchanged
in original order; and for 600 queued messages the first invocation pops
exactly the first 512 and the next invocation pops the remaining 88, still
in original order (their concatenation is the original queue and nothing
is left afterwards). -/
theorem drain_cap_512_leftover_in_order (queue : List StreamMsg) :
    (drainPop queue).1.length ≤ 512 ∧
    (drain_stream_inbox queue).2 = queue.drop MAX_PER_FRAME ∧
    (queue.length = 600 →
      (drainPop queue).1.length = 512 ∧
      (drainPop queue).1 = queue.take 512 ∧
      (drainPop ((drainPop queue).2)).1.length = 88 ∧
      (drainPop queue).1 ++ (drainPop ((drainPop queue).2)).1 = queue ∧
      (drainPop ((drainPop queue).2)).2 = []) := by
  refine ⟨?_, ?_, ?_⟩
  · simp only [drainPop, MAX_PER_FRAME]
    exact List.length_take_le 512 queue
  · unfold drain_stream_inbox drainPop
    by_cases h : queue.take MAX_PER_FRAME = [] <;> simp [h]
  · intro h600
    have hdrop : (queue.drop 512).length = 88 := by
      simp [List.length_drop, h600]
    have htake2 : (queue.drop 512).take 512 = queue.drop 512 := by
      apply List.take_of_length_le
      rw [hdrop]
      omega
    refine ⟨?_, rfl, ?_, ?_, ?_⟩
    · simp [drainPop, MAX_PER_FRAME, List.length_take, h600]
    · simp [drainPop, MAX_PER_FRAME, htake2, hdrop]
    · simp only [drainPop, MAX_PER_FRAME]
      rw [htake2]
      exact List.take_append_drop 512 queue
    · simp only [drainPop, MAX_PER_FRAME]
      apply List.drop_eq_nil_of_le
      rw [hdrop]
      omega

/-- Witness for C9 at a concrete 600-message queue. -/
theorem drain_cap_512_witness :
    (drainPop (List.replicate 600 (StreamMsg.Begin 0))).1.length = 512 ∧
    (drainPop ((drainPop (List.replicate 600 (StreamMsg.Begin 0))).2)).1.length = 88 := by
  have h := drain_cap_512_leftover_in_order
    (List.replicate 600 (StreamMsg.Begin 0))
  have h6 := h.2.2 (by rw [List.length_replicate])
  exact ⟨h6.1, h6.2.2.1⟩

/-! ## Producer lemmas -/

theorem procChoice_countP_terminal (e : Entity) (timeHit : Nat → Bool)
    (st : ProdState) (c : StreamChoice) :
    (procChoice e timeHit st c).2.countP isTerminal = 0 := by
  rcases c with ⟨⟨content, tool_calls⟩⟩
  cases content with
  | none =>
    cases tool_calls with
    | none => rfl
    | some calls =>
      by_cases hc : calls = [] <;> simp [procChoice, hc, isTerminal]
  | some txt =>
    by_cases h : txt = ""
    · cases tool_calls with
      | none => simp [procChoice, h]
      | some calls =>
        by_cases hc : calls = [] <;> simp [procChoice, h, hc, isTerminal]
    · unfold procChoice
      dsimp only
      rw [if_neg h]
      split <;>
        (cases tool_calls with
         | none => simp [isTerminal]
         | some calls =>
           by_cases hc : calls = [] <;> simp [hc, isTerminal])

theorem procChoices_countP_terminal (e : Entity) (timeHit : Nat → Bool)
    (st : ProdState) (cs : List StreamChoice) :
    (procChoices e timeHit st cs).2.countP isTerminal = 0 := by
  induction cs generalizing st with
  | nil => rfl
  | cons c cs ih =>
    unfold procChoices
    simp only [List.countP_append]
    rw [procChoice_countP_terminal, ih]

theorem runItems_countP_terminal (e : Entity) (timeHit : Nat → Bool)
    (mem : Option (List ChatMessage)) (st : ProdState)
    (items : List StreamItem) :
    (runItems e timeHit mem st items).countP isTerminal = 1 := by
  induction items generalizing st with
  | nil =>
    by_cases h : st.buf = "" <;> simp [runItems, h, isTerminal]
  | cons it rest ih =>
    cases it with
    | error err =>
      by_cases h : st.buf = "" <;> simp [runItems, h, isTerminal]
    | ok r =>
      unfold runItems
      simp only [List.countP_append]
      rw [procChoices_countP_terminal, ih]

theorem one_shot_turn_countP_terminal (e : Entity) (p : Provider) :
    (one_shot_turn e p).countP isTerminal = 1 := by
  unfold one_shot_turn
  cases p.chat with
  | error err => simp [isTerminal]
  | ok resp =>
    by_cases h : resp.getD "" = "" <;> simp [h, isTerminal]

/-! ## Claim C1: exactly one terminal message per dispatched turn -/

/-- **C1.** For every dispatched turn — streaming, streaming fallback, or
one-shot; success or failure; any chunk sequence and any timing — the
background task pushes exactly one terminal message (`Done` or `Err`) for
that turn: never zero and never two. -/
theorem turn_pushes_exactly_one_terminal (e : Entity) (p : Provider)
    (stream : Bool) (timeHit : Nat → Bool) :
    (runTurn e p stream timeHit).countP isTerminal = 1 := by
  unfold runTurn
  cases stream with
  | false => simpa using one_shot_turn_countP_terminal e p
  | true =>
    cases hs : p.chat_stream_struct with
    | error err => simpa using one_shot_turn_countP_terminal e p
    | ok items =>
      rw [if_pos rfl]
      dsimp only
      simp only [List.countP_cons]
      rw [runItems_countP_terminal]
      simp [isTerminal]

/-! ## Claim C2: coalescing loses no text -/

theorem deltaTexts_append (a b : List StreamMsg) :
    deltaTexts (a ++ b) = deltaTexts a ++ deltaTexts b := by
  unfold deltaTexts
  exact List.filterMap_append a b _

/-- One choice: the delta text emitted plus what stays buffered extends the
old buffer by exactly the content fragment. -/
theorem procChoice_join_buf (e : Entity) (timeHit : Nat → Bool)
    (st : ProdState) (c : StreamChoice) :
    strJoin (deltaTexts (procChoice e timeHit st c).2)
        ++ (procChoice e timeHit st c).1.buf =
      st.buf ++ (c.delta.content.getD "") := by
  rcases c with ⟨⟨content, tool_calls⟩⟩
  cases content with
  | none =>
    cases tool_calls with
    | none => simp [procChoice, deltaTexts, strJoin]
    | some calls =>
      by_cases hc : calls = [] <;>
        simp [procChoice, hc, deltaTexts, strJoin]
  | some txt =>
    by_cases h : txt = ""
    · subst h
      cases tool_calls with
      | none => simp [procChoice, deltaTexts, strJoin]
      | some calls =>
        by_cases hc : calls = [] <;>
          simp [procChoice, hc, deltaTexts, strJoin]
    · unfold procChoice
      dsimp only
      rw [if_neg h]
      split <;>
        (cases tool_calls with
         | none => simp [deltaTexts, strJoin, String.append_assoc]
         | some calls =>
           by_cases hc : calls = [] <;>
             simp [hc, deltaTexts, strJoin, String.append_assoc])

/-- A chunk's choices: emitted delta text plus the remaining buffer extends
the old buffer by the chunk's content fragments. -/
theorem procChoices_join_buf (e : Entity) (timeHit : Nat → Bool)
    (st : ProdState) (cs : List StreamChoice) :
    strJoin (deltaTexts (procChoices e timeHit st cs).2)
        ++ (procChoices e timeHit st cs).1.buf =
      st.buf ++ strJoin (cs.map (fun c => c.delta.content.getD "")) := by
  induction cs generalizing st with
  | nil => simp [procChoices, deltaTexts, strJoin]
  | cons c cs ih =>
    unfold procChoices
    simp only [List.map_cons, strJoin]
    rw [deltaTexts_append, strJoin_append, String.append_assoc]
    rw [ih ((procChoice e timeHit st c).1)]
    rw [← String.append_assoc]
    rw [procChoice_join_buf]
    rw [String.append_assoc]

/-- The content fragments of one clean chunk, as one string. -/
theorem strJoin_fragments_ok (r : StreamResponse) (rest : List StreamItem) :
    strJoin (fragments (Except.ok r :: rest)) =
      strJoin (r.choices.map (fun c => c.delta.content.getD ""))
        ++ strJoin (fragments rest) := by
  show strJoin (((r.choices.filterMap (fun c => c.delta.content)).filter
      (fun s => s ≠ "")) ++ fragments rest) = _
  rw [strJoin_append, strJoin_filter_ne_empty]
  congr 1
  have h1 : r.choices.filterMap (fun c => c.delta.content)
      = (r.choices.map (fun c => c.delta.content)).filterMap id := by
    simp [List.filterMap_map]
  rw [h1, strJoin_filterMap_id, List.map_map]
  rfl

/-- Invariant: in a clean run the delta texts emitted from state `st`
amount to the pending buffer followed by all remaining fragments. -/
theorem runItems_join_clean (e : Entity) (timeHit : Nat → Bool)
    (mem : Option (List ChatMessage)) (st : ProdState)
    (items : List StreamItem) (h : items.all isOkItem = true) :
    strJoin (deltaTexts (runItems e timeHit mem st items)) =
      st.buf ++ strJoin (fragments items) := by
  induction items generalizing st with
  | nil =>
    by_cases hb : st.buf = "" <;>
      simp [runItems, hb, deltaTexts, strJoin, fragments]
  | cons it rest ih =>
    cases it with
    | error err => simp [List.all_cons, isOkItem] at h
    | ok r =>
      have hrest : rest.all isOkItem = true := by
        simp only [List.all_cons, Bool.and_eq_true] at h
        exact h.2
      rcases hpc : procChoices e timeHit st r.choices with ⟨st1, ms1⟩
      have ih' := ih st1 hrest
      have hb := procChoices_join_buf e timeHit st r.choices
      rw [hpc] at hb
      show strJoin (deltaTexts (runItems e timeHit mem st (Except.ok r :: rest))) = _
      simp only [runItems, hpc]
      rw [deltaTexts_append, strJoin_append, ih']
      rw [strJoin_fragments_ok]
      rw [← String.append_assoc, hb, String.append_assoc]

/-- **C2.** For every chunk sequence of a streaming turn that ends cleanly
(no mid-stream error), and for every outcome of the size/time coalescing
thresholds (time modelled by an arbitrary oracle), the concatenation in
emission order of the texts of all `Delta` messages pushed by the producer
equals the concatenation of all non-empty content fragments received (the
producer-accumulated text). -/
theorem stream_delta_concat_eq_accumulated (e : Entity)
    (timeHit : Nat → Bool) (mem : Option (List ChatMessage))
    (items : List StreamItem) (h : items.all isOkItem = true) :
    strJoin (deltaTexts (runItems e timeHit mem initProdState items)) =
      strJoin (fragments items) := by
  rw [runItems_join_clean e timeHit mem initProdState items h]
  rfl

/-- Witness for C2: the three fragments "Hel", "lo wo", "rld!" under
thresholds that never force an early flush still deliver exactly
"Hello world!". -/
theorem stream_delta_concat_witness :
    strJoin (deltaTexts (runItems 0 (fun _ => false) none initProdState
        [Except.ok { choices := [{ delta := { content := some "Hel", tool_calls := none } }] },
         Except.ok { choices :=
            [{ delta := { content := some "lo wo", tool_calls := none } },
             { delta := { content := some "rld!", tool_calls := none } }] }])) =
      strJoin (fragments
        [Except.ok { choices := [{ delta := { content := some "Hel", tool_calls := none } }] },
         Except.ok { choices :=
            [{ delta := { content := some "lo wo", tool_calls := none } },
             { delta := { content := some "rld!", tool_calls := none } }] }]) :=
  stream_delta_concat_eq_accumulated 0 (fun _ => false) none _ (by decide)

/-! ## Claim C6: mid-stream error behaviour -/

/-- A run decomposes around an error-free prefix. -/
theorem runItems_okPrefix_split (e : Entity) (timeHit : Nat → Bool)
    (mem : Option (List ChatMessage)) (st : ProdState)
    (pre rest : List StreamItem) (hpre : pre.all isOkItem = true) :
    runItems e timeHit mem st (pre ++ rest) =
      (runOkPrefix e timeHit st pre).2
        ++ runItems e timeHit mem (runOkPrefix e timeHit st pre).1 rest := by
  induction pre generalizing st with
  | nil => simp [runOkPrefix]
  | cons it pre ih =>
    cases it with
    | error err => simp [List.all_cons, isOkItem] at hpre
    | ok r =>
      have hpre' : pre.all isOkItem = true := by
        simp only [List.all_cons, Bool.and_eq_true] at hpre
        exact hpre.2
      rcases hpc : procChoices e timeHit st r.choices with ⟨st1, ms1⟩
      rcases hro : runOkPrefix e timeHit st1 pre with ⟨st2, ms2⟩
      have ih' := ih st1 hpre'
      rw [hro] at ih'
      show runItems e timeHit mem st (Except.ok r :: (pre ++ rest)) = _
      simp only [runItems, runOkPrefix, hpc, hro, ih', List.append_assoc]

/-- An error-free prefix emits no terminal message. -/
theorem runOkPrefix_countP_terminal (e : Entity) (timeHit : Nat → Bool)
    (st : ProdState) (pre : List StreamItem) :
    (runOkPrefix e timeHit st pre).2.countP isTerminal = 0 := by
  induction pre generalizing st with
  | nil => rfl
  | cons it pre ih =>
    cases it with
    | error err => rfl
    | ok r =>
      unfold runOkPrefix
      simp only [List.countP_append]
      rw [procChoices_countP_terminal, ih]

/-- **C6.** On a mid-stream error after any error-free prefix, the
producer first pushes a `Delta` carrying the buffered text iff that buffer
is non-empty, then pushes exactly one `Err`, and then stops: the remaining
stream items are never consumed and no further `Delta`, `Tool` or `Done`
follows (the prefix itself contains no terminal message). -/
theorem stream_error_flush_then_single_error (e : Entity)
    (timeHit : Nat → Bool) (mem : Option (List ChatMessage))
    (st : ProdState) (pre rest : List StreamItem) (err : String)
    (hpre : pre.all isOkItem = true) :
    runItems e timeHit mem st (pre ++ Except.error err :: rest) =
      (runOkPrefix e timeHit st pre).2
        ++ ((if (runOkPrefix e timeHit st pre).1.buf = "" then []
             else [StreamMsg.Delta e (runOkPrefix e timeHit st pre).1.buf])
            ++ [StreamMsg.Err e err]) ∧
    (runOkPrefix e timeHit st pre).2.countP isTerminal = 0 := by
  constructor
  · rw [runItems_okPrefix_split e timeHit mem st pre (Except.error err :: rest) hpre]
    congr 1
  · exact runOkPrefix_countP_terminal e timeHit st pre

/-- Witness for C6: one clean chunk buffering "ab", then an error: the
buffered text is flushed, a single `Err` follows, and the turn stops. -/
theorem stream_error_flush_witness :
    runItems 0 (fun _ => false) none initProdState
        [Except.ok { choices := [{ delta := { content := some "ab", tool_calls := none } }] },
         Except.error "boom"] =
      [StreamMsg.Delta 0 "ab", StreamMsg.Err 0 "boom"] := by
  have h := (stream_error_flush_then_single_error 0 (fun _ => false) none
    initProdState
    [Except.ok { choices := [{ delta := { content := some "ab", tool_calls := none } }] }]
    [] "boom" (by decide)).1
  exact h.trans (by decide)

/-! ## Claim C7: streaming-setup failure falls back to one-shot -/

/-- **C7.** When `stream = true` and the streaming call fails at setup, the
turn is not failed: the one-shot call runs instead.  If it succeeds with
non-empty text the inbox receives exactly `Begin`, one `Delta` carrying the
whole text, and one `Done` whose final text is that text; only if the
one-shot call also fails is a single `Err` pushed. -/
theorem stream_setup_failure_falls_back (e : Entity) (timeHit : Nat → Bool)
    (p : Provider) (err : String)
    (hs : p.chat_stream_struct = Except.error err) :
    (∀ text : String, p.chat = Except.ok (some text) → text ≠ "" →
      runTurn e p true timeHit =
        [StreamMsg.Begin e, StreamMsg.Delta e text,
         StreamMsg.Done e (some text)
           (merge_memory_with_final (memFilter p.memory_contents)
             (some text))]) ∧
    (∀ err2 : String, p.chat = Except.error err2 →
      runTurn e p true timeHit = [StreamMsg.Err e err2]) := by
  constructor
  · intro text hchat hne
    unfold runTurn
    rw [if_pos rfl, hs]
    unfold one_shot_turn
    rw [hchat]
    simp [finalTextOf, hne]
  · intro err2 hchat
    unfold runTurn
    rw [if_pos rfl, hs]
    unfold one_shot_turn
    rw [hchat]

/-- Witness for C7: a provider whose streaming setup fails and whose
one-shot call returns "hello". -/
theorem stream_setup_fallback_witness :
    runTurn 0
        { chat_stream_struct := Except.error "unsupported",
          chat := Except.ok (some "hello"), memory_contents := none }
        true (fun _ => false) =
      [StreamMsg.Begin 0, StreamMsg.Delta 0 "hello",
       StreamMsg.Done 0 (some "hello") none] := by
  have h := (stream_setup_failure_falls_back 0 (fun _ => false)
    { chat_stream_struct := Except.error "unsupported",
      chat := Except.ok (some "hello"), memory_contents := none }
    "unsupported" rfl).1 "hello" rfl (by decide)
  exact h.trans (by decide)

/-! ## Drain aggregation lemmas -/

@[simp]
theorem deltaTextFor_begin (e x : Entity) :
    deltaTextFor e (StreamMsg.Begin x) = none := rfl

@[simp]
theorem deltaTextFor_tool (e x : Entity) (c : List ToolCall) :
    deltaTextFor e (StreamMsg.Tool x c) = none := rfl

@[simp]
theorem deltaTextFor_done (e x : Entity) (f : Option String)
    (mem : Option (List ChatMessage)) :
    deltaTextFor e (StreamMsg.Done x f mem) = none := rfl

@[simp]
theorem deltaTextFor_err (e x : Entity) (s : String) :
    deltaTextFor e (StreamMsg.Err x s) = none := rfl

@[simp]
theorem deltaTextFor_delta (e a : Entity) (t : String) :
    deltaTextFor e (StreamMsg.Delta a t) =
      if a = e then some t else none := rfl

/-- A message that is no `Delta` contributes nothing to `deltaConcat`. -/
theorem deltaConcat_cons_none (e : Entity) (m : StreamMsg)
    (ms : List StreamMsg) (h : deltaTextFor e m = none) :
    deltaConcat e (m :: ms) = deltaConcat e ms := by
  unfold deltaConcat
  rw [List.filterMap_cons_none h]

@[simp]
theorem deltaConcat_cons_delta (e a : Entity) (t : String)
    (ms : List StreamMsg) :
    deltaConcat e (StreamMsg.Delta a t :: ms) =
      if a = e then t ++ deltaConcat e ms else deltaConcat e ms := by
  by_cases h : a = e
  · subst h
    unfold deltaConcat
    rw [if_pos rfl,
      List.filterMap_cons_some
        (show deltaTextFor a (StreamMsg.Delta a t) = some t by simp)]
    rfl
  · rw [if_neg h, deltaConcat_cons_none]
    simp [h]

@[simp]
theorem deltaConcat_cons_begin (e x : Entity) (ms : List StreamMsg) :
    deltaConcat e (StreamMsg.Begin x :: ms) = deltaConcat e ms :=
  deltaConcat_cons_none e (StreamMsg.Begin x) ms rfl

@[simp]
theorem deltaConcat_cons_tool (e x : Entity) (c : List ToolCall)
    (ms : List StreamMsg) :
    deltaConcat e (StreamMsg.Tool x c :: ms) = deltaConcat e ms :=
  deltaConcat_cons_none e (StreamMsg.Tool x c) ms rfl

@[simp]
theorem deltaConcat_cons_done (e x : Entity) (f : Option String)
    (mem : Option (List ChatMessage)) (ms : List StreamMsg) :
    deltaConcat e (StreamMsg.Done x f mem :: ms) = deltaConcat e ms :=
  deltaConcat_cons_none e (StreamMsg.Done x f mem) ms rfl

@[simp]
theorem deltaConcat_cons_err (e x : Entity) (s : String)
    (ms : List StreamMsg) :
    deltaConcat e (StreamMsg.Err x s :: ms) = deltaConcat e ms :=
  deltaConcat_cons_none e (StreamMsg.Err x s) ms rfl

@[simp]
theorem deltaEntities_nil : deltaEntities [] = [] := rfl

@[simp]
theorem deltaEntities_delta (a : Entity) (t : String) (ms : List StreamMsg) :
    deltaEntities (StreamMsg.Delta a t :: ms) =
      a :: (deltaEntities ms).filter (fun x => x ≠ a) := rfl

@[simp]
theorem deltaEntities_begin (x : Entity) (ms : List StreamMsg) :
    deltaEntities (StreamMsg.Begin x :: ms) = deltaEntities ms := rfl

@[simp]
theorem deltaEntities_tool (x : Entity) (c : List ToolCall)
    (ms : List StreamMsg) :
    deltaEntities (StreamMsg.Tool x c :: ms) = deltaEntities ms := rfl

@[simp]
theorem deltaEntities_done (x : Entity) (f : Option String)
    (mem : Option (List ChatMessage)) (ms : List StreamMsg) :
    deltaEntities (StreamMsg.Done x f mem :: ms) = deltaEntities ms := rfl

@[simp]
theorem deltaEntities_err (x : Entity) (s : String) (ms : List StreamMsg) :
    deltaEntities (StreamMsg.Err x s :: ms) = deltaEntities ms := rfl

@[simp]
theorem isDeltaFor_eval (k : Entity) (m : StreamMsg) :
    isDeltaFor k m = (deltaTextFor k m).isSome := rfl

/-- Removing the `Delta`s of one entity does not change another entity's
concatenation. -/
theorem deltaConcat_filter_other (e k : Entity) (ms : List StreamMsg)
    (hek : e ≠ k) :
    deltaConcat e (ms.filter (fun m => !(isDeltaFor k m))) =
      deltaConcat e ms := by
  induction ms with
  | nil => rfl
  | cons m ms ih =>
    cases m with
    | Delta a t =>
      by_cases hak : a = k
      · subst hak
        rw [List.filter_cons_of_neg (by simp [isDeltaFor, deltaTextFor]), ih,
          deltaConcat_cons_delta, if_neg (fun h2 => hek h2.symm)]
      · rw [List.filter_cons_of_pos (by simp [isDeltaFor, deltaTextFor, hak]),
          deltaConcat_cons_delta, deltaConcat_cons_delta, ih]
    | Begin x =>
      rw [List.filter_cons_of_pos (by simp [isDeltaFor]),
        deltaConcat_cons_begin, deltaConcat_cons_begin, ih]
    | Tool x c =>
      rw [List.filter_cons_of_pos (by simp [isDeltaFor]),
        deltaConcat_cons_tool, deltaConcat_cons_tool, ih]
    | Done x f mem =>
      rw [List.filter_cons_of_pos (by simp [isDeltaFor]),
        deltaConcat_cons_done, deltaConcat_cons_done, ih]
    | Err x s =>
      rw [List.filter_cons_of_pos (by simp [isDeltaFor]),
        deltaConcat_cons_err, deltaConcat_cons_err, ih]

/-- Removing one entity's `Delta`s removes exactly that entity from the
first-arrival entity list. -/
theorem deltaEntities_filter (k : Entity) (ms : List StreamMsg) :
    deltaEntities (ms.filter (fun m => !(isDeltaFor k m))) =
      (deltaEntities ms).filter (fun x => x ≠ k) := by
  induction ms with
  | nil => rfl
  | cons m ms ih =>
    cases m with
    | Delta a t =>
      by_cases hak : a = k
      · subst hak
        rw [List.filter_cons_of_neg (by simp [isDeltaFor, deltaTextFor]), ih,
          deltaEntities_delta, List.filter_cons_of_neg (by simp),
          List.filter_filter]
        apply List.filter_congr
        intro x _
        simp
      · rw [List.filter_cons_of_pos (by simp [isDeltaFor, deltaTextFor, hak]),
          deltaEntities_delta, deltaEntities_delta, ih,
          List.filter_cons_of_pos (by simp [hak]),
          List.filter_filter, List.filter_filter]
        congr 1
        apply List.filter_congr
        intro x _
        exact Bool.and_comm _ _
    | Begin x =>
      rw [List.filter_cons_of_pos (by simp [isDeltaFor]),
        deltaEntities_begin, deltaEntities_begin, ih]
    | Tool x c =>
      rw [List.filter_cons_of_pos (by simp [isDeltaFor]),
        deltaEntities_tool, deltaEntities_tool, ih]
    | Done x f mem =>
      rw [List.filter_cons_of_pos (by simp [isDeltaFor]),
        deltaEntities_done, deltaEntities_done, ih]
    | Err x s =>
      rw [List.filter_cons_of_pos (by simp [isDeltaFor]),
        deltaEntities_err, deltaEntities_err, ih]

@[simp]
theorem deltaConcat_nil (e : Entity) : deltaConcat e [] = "" := rfl

theorem mergeSpec_nil (dm : List (Entity × String)) : mergeSpec dm [] = dm := by
  induction dm with
  | nil => rfl
  | cons p rest ih =>
    rcases p with ⟨k, s⟩
    simp [mergeSpec, ih]

/-- The first-arrival entity list ignores a message that is no `Delta`. -/
theorem deltaEntities_cons_of_none (m : StreamMsg) (ms : List StreamMsg)
    (h : ∀ x : Entity, deltaTextFor x m = none) :
    deltaEntities (m :: ms) = deltaEntities ms := by
  cases m with
  | Delta a t =>
    have := h a
    simp at this
  | Begin x => rfl
  | Tool x c => rfl
  | Done x f mem => rfl
  | Err x s => rfl

/-- `mergeSpec` ignores a message that is no `Delta`. -/
theorem mergeSpec_cons_of_none (dm : List (Entity × String)) (m : StreamMsg)
    (ms : List StreamMsg) (h : ∀ x : Entity, deltaTextFor x m = none) :
    mergeSpec dm (m :: ms) = mergeSpec dm ms := by
  induction dm generalizing ms with
  | nil =>
    show (deltaEntities (m :: ms)).map _ = (deltaEntities ms).map _
    rw [deltaEntities_cons_of_none m ms h]
    apply List.map_congr_left
    intro x _
    rw [deltaConcat_cons_none x m ms (h x)]
  | cons p rest ih =>
    rcases p with ⟨k, s⟩
    show (k, s ++ deltaConcat k (m :: ms)) :: _ = (k, s ++ deltaConcat k ms) :: _
    rw [deltaConcat_cons_none k m ms (h k),
      List.filter_cons_of_pos (by simp [isDeltaFor, h k]), ih]

/-- Key step: absorbing a `Delta` into the association list commutes with
`mergeSpec`. -/
theorem mergeSpec_insertAppend (dm : List (Entity × String)) (a : Entity)
    (t : String) (ms : List StreamMsg) :
    mergeSpec (insertAppend dm a t) ms =
      mergeSpec dm (StreamMsg.Delta a t :: ms) := by
  induction dm generalizing ms with
  | nil =>
    show mergeSpec [(a, t)] ms = (deltaEntities (StreamMsg.Delta a t :: ms)).map _
    rw [deltaEntities_delta]
    show (a, t ++ deltaConcat a ms) :: _ = _
    rw [List.map_cons]
    congr 1
    · rw [deltaConcat_cons_delta, if_pos rfl]
    · show (deltaEntities (ms.filter (fun m => !(isDeltaFor a m)))).map _ = _
      rw [deltaEntities_filter]
      apply List.map_congr_left
      intro x hx
      have hxa : x ≠ a := by
        rcases List.mem_filter.mp hx with ⟨_, hdec⟩
        simpa using hdec
      rw [deltaConcat_filter_other x a ms hxa, deltaConcat_cons_delta,
        if_neg (fun h2 => hxa h2.symm)]
  | cons p rest ih =>
    rcases p with ⟨k, s⟩
    by_cases hka : k = a
    · subst hka
      show mergeSpec (if k = k then (k, s ++ t) :: rest else _) ms = _
      rw [if_pos rfl]
      show (k, (s ++ t) ++ deltaConcat k ms) :: _ =
        (k, s ++ deltaConcat k (StreamMsg.Delta k t :: ms)) :: _
      rw [deltaConcat_cons_delta, if_pos rfl, ← String.append_assoc]
      congr 2
      rw [List.filter_cons_of_neg (by simp [isDeltaFor, deltaTextFor])]
    · show mergeSpec (if k = a then _ else (k, s) :: insertAppend rest a t) ms = _
      rw [if_neg hka]
      show (k, s ++ deltaConcat k ms) :: mergeSpec (insertAppend rest a t) _ =
        (k, s ++ deltaConcat k (StreamMsg.Delta a t :: ms)) :: _
      have hak : ¬ a = k := fun h2 => hka h2.symm
      rw [deltaConcat_cons_delta, if_neg hak]
      congr 1
      rw [ih]
      congr 1
      rw [List.filter_cons_of_pos (by simp [isDeltaFor, deltaTextFor, hak])]

/-- The `delta_map` accumulated by the drain loop is exactly `mergeSpec`. -/
theorem delta_map_fold (ms : List StreamMsg) (acc : DrainAcc) :
    (ms.foldl accMsg acc).delta_map = mergeSpec acc.delta_map ms := by
  induction ms generalizing acc with
  | nil => exact (mergeSpec_nil acc.delta_map).symm
  | cons m ms ih =>
    show ((ms.foldl accMsg (accMsg acc m)).delta_map) = _
    rw [ih]
    cases m with
    | Begin x =>
      exact (mergeSpec_cons_of_none _ _ _ (fun x2 => deltaTextFor_begin x2 x)).symm
    | Delta a t =>
      exact mergeSpec_insertAppend acc.delta_map a t ms
    | Tool x c =>
      exact (mergeSpec_cons_of_none _ _ _ (fun x2 => deltaTextFor_tool x2 x c)).symm
    | Done x f mem =>
      exact (mergeSpec_cons_of_none _ _ _ (fun x2 => deltaTextFor_done x2 x f mem)).symm
    | Err x s =>
      exact (mergeSpec_cons_of_none _ _ _ (fun x2 => deltaTextFor_err x2 x s)).symm

theorem tools_fold (ms : List StreamMsg) (acc : DrainAcc) :
    (ms.foldl accMsg acc).tools = acc.tools ++ ms.filterMap toolOf := by
  induction ms generalizing acc with
  | nil => simp
  | cons m ms ih =>
    show ((ms.foldl accMsg (accMsg acc m)).tools) = _
    rw [ih]
    cases m with
    | Tool x c =>
      show (acc.tools ++ [(x, c)]) ++ ms.filterMap toolOf = _
      rw [List.filterMap_cons_some (show toolOf (StreamMsg.Tool x c) = some (x, c) from rfl)]
      simp
    | Begin x => rfl
    | Delta a t => rfl
    | Done x f mem => rfl
    | Err x s => rfl

theorem dones_fold (ms : List StreamMsg) (acc : DrainAcc) :
    (ms.foldl accMsg acc).dones = acc.dones ++ ms.filterMap doneOf := by
  induction ms generalizing acc with
  | nil => simp
  | cons m ms ih =>
    show ((ms.foldl accMsg (accMsg acc m)).dones) = _
    rw [ih]
    cases m with
    | Done x f mem =>
      show (acc.dones ++ [(x, f, mem)]) ++ ms.filterMap doneOf = _
      rw [List.filterMap_cons_some
        (show doneOf (StreamMsg.Done x f mem) = some (x, f, mem) from rfl)]
      simp
    | Begin x => rfl
    | Delta a t => rfl
    | Tool x c => rfl
    | Err x s => rfl

theorem errs_fold (ms : List StreamMsg) (acc : DrainAcc) :
    (ms.foldl accMsg acc).errs = acc.errs ++ ms.filterMap errOf := by
  induction ms generalizing acc with
  | nil => simp
  | cons m ms ih =>
    show ((ms.foldl accMsg (accMsg acc m)).errs) = _
    rw [ih]
    cases m with
    | Err x s =>
      show (acc.errs ++ [(x, s)]) ++ ms.filterMap errOf = _
      rw [List.filterMap_cons_some
        (show errOf (StreamMsg.Err x s) = some (x, s) from rfl)]
      simp
    | Begin x => rfl
    | Delta a t => rfl
    | Tool x c => rfl
    | Done x f mem => rfl

/-- Full characterization of one aggregation pass: notifications are the
per-entity delta concatenations (entities in first-arrival order), then the
tool calls, then the completions, then the failures, each in arrival
order. -/
theorem aggregateDrained_eq (drained : List StreamMsg) :
    aggregateDrained drained =
      (deltaEntities drained).map
          (fun e => Notification.TextAppended e (deltaConcat e drained))
        ++ (drained.filterMap toolOf).map
          (fun p => Notification.ToolCallsReceived p.1 p.2)
        ++ (drained.filterMap doneOf).map
          (fun p => Notification.Completed p.1 p.2.1 p.2.2)
        ++ (drained.filterMap errOf).map
          (fun p => Notification.Failed p.1 p.2) := by
  dsimp only [aggregateDrained]
  rw [delta_map_fold, tools_fold, dones_fold, errs_fold]
  simp only [emptyAcc, List.nil_append]
  rw [show mergeSpec [] drained =
      (deltaEntities drained).map (fun e => (e, deltaConcat e drained)) from rfl,
    List.map_map]
  rfl

/-- The notifications of a drain invocation are the aggregation of the
popped prefix (also when nothing was popped). -/
theorem drain_fst (queue : List StreamMsg) :
    (drain_stream_inbox queue).1 =
      aggregateDrained (queue.take MAX_PER_FRAME) := by
  unfold drain_stream_inbox drainPop
  by_cases h : queue.take MAX_PER_FRAME = []
  · rw [h]
    simp [aggregateDrained, emptyAcc]
  · simp [h]

theorem deltaEntities_nodup (ms : List StreamMsg) :
    (deltaEntities ms).Nodup := by
  induction ms with
  | nil => exact List.nodup_nil
  | cons m ms ih =>
    cases m with
    | Delta a t =>
      rw [deltaEntities_delta]
      refine List.Nodup.cons ?_ (List.Nodup.filter _ ih)
      intro hmem
      rcases List.mem_filter.mp hmem with ⟨_, hdec⟩
      simp at hdec
    | Begin x => exact ih
    | Tool x c => exact ih
    | Done x f mem => exact ih
    | Err x s => exact ih

@[simp]
theorem hasDeltaFor_nil (e : Entity) : hasDeltaFor e [] = false := rfl

theorem hasDeltaFor_cons (e : Entity) (m : StreamMsg) (ms : List StreamMsg) :
    hasDeltaFor e (m :: ms) =
      ((deltaTextFor e m).isSome || hasDeltaFor e ms) := rfl

theorem mem_deltaEntities (e : Entity) (ms : List StreamMsg) :
    e ∈ deltaEntities ms ↔ hasDeltaFor e ms = true := by
  induction ms with
  | nil => simp
  | cons m ms ih =>
    rw [hasDeltaFor_cons]
    cases m with
    | Delta a t =>
      rw [deltaEntities_delta]
      by_cases hae : a = e
      · subst hae
        constructor
        · intro _
          simp
        · intro _
          exact List.mem_cons_self _ _
      · have hde : (deltaTextFor e (StreamMsg.Delta a t)).isSome = false := by
          simp [hae]
        rw [hde, Bool.false_or]
        constructor
        · intro hmem
          rcases List.mem_cons.mp hmem with h1 | h1
          · exact absurd h1.symm hae
          · exact ih.mp (List.mem_filter.mp h1).1
        · intro hdel
          apply List.mem_cons_of_mem
          rw [List.mem_filter]
          exact ⟨ih.mpr hdel, by simpa using fun h2 => hae h2.symm⟩
    | Begin x =>
      rw [deltaEntities_begin, ih]
      simp
    | Tool x c =>
      rw [deltaEntities_tool, ih]
      simp
    | Done x f mem =>
      rw [deltaEntities_done, ih]
      simp
    | Err x s =>
      rw [deltaEntities_err, ih]
      simp

/-- On a duplicate-free list, filtering for one element yields that element
once, or nothing. -/
theorem nodup_filter_eq_single (l : List Entity) (hl : l.Nodup) (e : Entity) :
    l.filter (fun x => x = e) = if e ∈ l then [e] else [] := by
  induction l with
  | nil => simp
  | cons a l ih =>
    rcases List.nodup_cons.mp hl with ⟨ha, hl'⟩
    by_cases hae : a = e
    · subst hae
      rw [List.filter_cons_of_pos (by simp), if_pos (List.mem_cons_self a l)]
      have : l.filter (fun x => x = a) = [] := by
        rw [List.filter_eq_nil_iff]
        intro b hb
        simp only [decide_eq_true_eq]
        intro hba
        exact ha (hba ▸ hb)
      rw [this]
    · rw [List.filter_cons_of_neg (by simp [hae]), ih hl']
      by_cases he : e ∈ l
      · rw [if_pos he, if_pos (List.mem_cons_of_mem a he)]
      · rw [if_neg he, if_neg]
        intro hc
        rcases List.mem_cons.mp hc with h1 | h1
        · exact hae h1.symm
        · exact he h1

/-- In `X ++ Y`, an element satisfying `p` sits left of `X.length` when all
of `Y` fails `p`. -/
theorem getElem_pred_lt_left (X Y : List Notification) (i : Nat)
    (v : Notification) (p : Notification → Bool)
    (h : (X ++ Y)[i]? = some v) (hv : p v = true)
    (hY : ∀ w ∈ Y, p w = false) : i < X.length := by
  by_contra hc
  rw [List.getElem?_append_right (by omega)] at h
  have hmem := List.getElem?_mem h
  rw [hY v hmem] at hv
  exact Bool.noConfusion hv

/-- In `X ++ Y`, an element satisfying `p` sits at or right of `X.length`
when all of `X` fails `p`. -/
theorem getElem_pred_ge_left (X Y : List Notification) (j : Nat)
    (v : Notification) (p : Notification → Bool)
    (h : (X ++ Y)[j]? = some v) (hv : p v = true)
    (hX : ∀ w ∈ X, p w = false) : X.length ≤ j := by
  by_contra hc
  rw [List.getElem?_append_left (by omega)] at h
  have hmem := List.getElem?_mem h
  rw [hX v hmem] at hv
  exact Bool.noConfusion hv

/-- Filtering a kind-homogeneous notification block for a foreign kind
yields nothing. -/
theorem filter_map_notif_nil {α : Type} (f : α → Notification)
    (p : Notification → Bool) (l : List α) (h : ∀ x, p (f x) = false) :
    (l.map f).filter p = [] := by
  rw [List.filter_eq_nil_iff]
  intro a ha
  rcases List.mem_map.mp ha with ⟨x, _, rfl⟩
  rw [h x]
  exact Bool.noConfusion

/-- Filtering a kind-homogeneous notification block for its own kind keeps
it whole. -/
theorem filter_map_notif_self {α : Type} (f : α → Notification)
    (p : Notification → Bool) (l : List α) (h : ∀ x, p (f x) = true) :
    (l.map f).filter p = l.map f := by
  rw [List.filter_eq_self]
  intro a ha
  rcases List.mem_map.mp ha with ⟨x, _, rfl⟩
  exact h x

/-- All elements of a mapped block satisfy a kind predicate uniformly. -/
theorem forall_mem_map_notif {α : Type} (f : α → Notification)
    (p : Notification → Bool) (l : List α) (h : ∀ x, p (f x) = false) :
    ∀ w ∈ l.map f, p w = false := by
  intro w hw
  rcases List.mem_map.mp hw with ⟨x, _, rfl⟩
  exact h x

/-- In a four-block concatenation where only the first block can hold
`TextAppended` and only the third can hold `Completed`, every
`TextAppended` index precedes every `Completed` index. -/
theorem textIdx_lt_doneIdx (A B C D : List Notification)
    (hBt : ∀ w ∈ B, isTextNotif w = false)
    (hCt : ∀ w ∈ C, isTextNotif w = false)
    (hDt : ∀ w ∈ D, isTextNotif w = false)
    (hAd : ∀ w ∈ A, isDoneNotif w = false)
    (hBd : ∀ w ∈ B, isDoneNotif w = false)
    (i j : Nat) (v w : Notification)
    (hi : (A ++ B ++ C ++ D)[i]? = some v) (hv : isTextNotif v = true)
    (hj : (A ++ B ++ C ++ D)[j]? = some w) (hw : isDoneNotif w = true) :
    i < j := by
  have hi2 : (A ++ (B ++ (C ++ D)))[i]? = some v := by
    simpa [List.append_assoc] using hi
  have hmemT : ∀ u ∈ B ++ (C ++ D), isTextNotif u = false := by
    intro u hu
    rcases List.mem_append.mp hu with h1 | h1
    · exact hBt u h1
    · rcases List.mem_append.mp h1 with h2 | h2
      · exact hCt u h2
      · exact hDt u h2
  have hlt : i < A.length :=
    getElem_pred_lt_left A (B ++ (C ++ D)) i v isTextNotif hi2 hv hmemT
  have hj2 : ((A ++ B) ++ (C ++ D))[j]? = some w := by
    simpa [List.append_assoc] using hj
  have hmemD : ∀ u ∈ A ++ B, isDoneNotif u = false := by
    intro u hu
    rcases List.mem_append.mp hu with h1 | h1
    · exact hAd u h1
    · exact hBd u h1
  have hge : (A ++ B).length ≤ j :=
    getElem_pred_ge_left (A ++ B) (C ++ D) j w isDoneNotif hj2 hw hmemD
  rw [List.length_append] at hge
  omega

/-- The `TextAppended` notifications of a drain invocation are exactly the
per-entity aggregation block. -/
theorem drain_filter_text (queue : List StreamMsg) :
    ((drain_stream_inbox queue).1).filter isTextNotif =
      (deltaEntities (queue.take MAX_PER_FRAME)).map
        (fun x => Notification.TextAppended x
          (deltaConcat x (queue.take MAX_PER_FRAME))) := by
  have hD := drain_fst queue
  rw [aggregateDrained_eq] at hD
  rw [hD, List.filter_append, List.filter_append, List.filter_append]
  rw [filter_map_notif_self
      (fun x : Entity => Notification.TextAppended x
        (deltaConcat x (queue.take MAX_PER_FRAME))) isTextNotif
      _ (fun x => rfl),
    filter_map_notif_nil
      (fun p : Entity × List ToolCall =>
        Notification.ToolCallsReceived p.1 p.2) isTextNotif
      _ (fun x => rfl),
    filter_map_notif_nil
      (fun p : Entity × Option String × Option (List ChatMessage) =>
        Notification.Completed p.1 p.2.1 p.2.2) isTextNotif
      _ (fun x => rfl),
    filter_map_notif_nil
      (fun p : Entity × String => Notification.Failed p.1 p.2) isTextNotif
      _ (fun x => rfl)]
  simp

/-- The `ToolCallsReceived` notifications of a drain invocation are exactly
the drained `Tool` messages, in arrival order. -/
theorem drain_filter_tool (queue : List StreamMsg) :
    ((drain_stream_inbox queue).1).filter isToolNotif =
      ((queue.take MAX_PER_FRAME).filterMap toolOf).map
        (fun p => Notification.ToolCallsReceived p.1 p.2) := by
  have hD := drain_fst queue
  rw [aggregateDrained_eq] at hD
  rw [hD, List.filter_append, List.filter_append, List.filter_append]
  rw [filter_map_notif_nil
      (fun x : Entity => Notification.TextAppended x
        (deltaConcat x (queue.take MAX_PER_FRAME))) isToolNotif
      _ (fun x => rfl),
    filter_map_notif_self
      (fun p : Entity × List ToolCall =>
        Notification.ToolCallsReceived p.1 p.2) isToolNotif
      _ (fun x => rfl),
    filter_map_notif_nil
      (fun p : Entity × Option String × Option (List ChatMessage) =>
        Notification.Completed p.1 p.2.1 p.2.2) isToolNotif
      _ (fun x => rfl),
    filter_map_notif_nil
      (fun p : Entity × String => Notification.Failed p.1 p.2) isToolNotif
      _ (fun x => rfl)]
  simp

/-- The `Completed` notifications of a drain invocation are exactly the
drained `Done` messages, in arrival order. -/
theorem drain_filter_done (queue : List StreamMsg) :
    ((drain_stream_inbox queue).1).filter isDoneNotif =
      ((queue.take MAX_PER_FRAME).filterMap doneOf).map
        (fun p => Notification.Completed p.1 p.2.1 p.2.2) := by
  have hD := drain_fst queue
  rw [aggregateDrained_eq] at hD
  rw [hD, List.filter_append, List.filter_append, List.filter_append]
  rw [filter_map_notif_nil
      (fun x : Entity => Notification.TextAppended x
        (deltaConcat x (queue.take MAX_PER_FRAME))) isDoneNotif
      _ (fun x => rfl),
    filter_map_notif_nil
      (fun p : Entity × List ToolCall =>
        Notification.ToolCallsReceived p.1 p.2) isDoneNotif
      _ (fun x => rfl),
    filter_map_notif_self
      (fun p : Entity × Option String × Option (List ChatMessage) =>
        Notification.Completed p.1 p.2.1 p.2.2) isDoneNotif
      _ (fun x => rfl),
    filter_map_notif_nil
      (fun p : Entity × String => Notification.Failed p.1 p.2) isDoneNotif
      _ (fun x => rfl)]
  simp

/-- The `Failed` notifications of a drain invocation are exactly the
drained `Err` messages, in arrival order. -/
theorem drain_filter_err (queue : List StreamMsg) :
    ((drain_stream_inbox queue).1).filter isErrNotif =
      ((queue.take MAX_PER_FRAME).filterMap errOf).map
        (fun p => Notification.Failed p.1 p.2) := by
  have hD := drain_fst queue
  rw [aggregateDrained_eq] at hD
  rw [hD, List.filter_append, List.filter_append, List.filter_append]
  rw [filter_map_notif_nil
      (fun x : Entity => Notification.TextAppended x
        (deltaConcat x (queue.take MAX_PER_FRAME))) isErrNotif
      _ (fun x => rfl),
    filter_map_notif_nil
      (fun p : Entity × List ToolCall =>
        Notification.ToolCallsReceived p.1 p.2) isErrNotif
      _ (fun x => rfl),
    filter_map_notif_nil
      (fun p : Entity × Option String × Option (List ChatMessage) =>
        Notification.Completed p.1 p.2.1 p.2.2) isErrNotif
      _ (fun x => rfl),
    filter_map_notif_self
      (fun p : Entity × String => Notification.Failed p.1 p.2) isErrNotif
      _ (fun x => rfl)]
  simp

/-! ## Claim C8: per-handle aggregation within one drain invocation -/

/-- **C8.** Within one drain invocation: all drained `Delta` messages of
one handle are concatenated, in arrival order, into exactly one
`TextAppended` notification for that handle (none when the handle has no
drained `Delta`); every `Tool`, `Done` and `Err` message yields its own
individual notification, in arrival order; and any `TextAppended` for a
handle is emitted before that same handle's `Completed`. -/
theorem drain_groups_deltas_per_handle (queue : List StreamMsg) :
    (∀ e : Entity,
      ((drain_stream_inbox queue).1).filter (isTextFor e) =
        if hasDeltaFor e (queue.take MAX_PER_FRAME) = true then
          [Notification.TextAppended e
            (deltaConcat e (queue.take MAX_PER_FRAME))]
        else []) ∧
    (((drain_stream_inbox queue).1).filter isToolNotif =
      ((queue.take MAX_PER_FRAME).filterMap toolOf).map
        (fun p => Notification.ToolCallsReceived p.1 p.2)) ∧
    (((drain_stream_inbox queue).1).filter isDoneNotif =
      ((queue.take MAX_PER_FRAME).filterMap doneOf).map
        (fun p => Notification.Completed p.1 p.2.1 p.2.2)) ∧
    (((drain_stream_inbox queue).1).filter isErrNotif =
      ((queue.take MAX_PER_FRAME).filterMap errOf).map
        (fun p => Notification.Failed p.1 p.2)) ∧
    (∀ (i j : Nat) (e : Entity) (s : String) (f : Option String)
        (m : Option (List ChatMessage)),
      ((drain_stream_inbox queue).1)[i]? =
          some (Notification.TextAppended e s) →
      ((drain_stream_inbox queue).1)[j]? =
          some (Notification.Completed e f m) →
      i < j) := by
  have hD := drain_fst queue
  rw [aggregateDrained_eq] at hD
  refine ⟨?_, ?_, ?_, ?_, ?_⟩
  · intro e
    rw [hD, List.filter_append, List.filter_append, List.filter_append]
    rw [filter_map_notif_nil
        (fun p : Entity × List ToolCall =>
          Notification.ToolCallsReceived p.1 p.2) (isTextFor e)
        _ (fun x => rfl),
      filter_map_notif_nil
        (fun p : Entity × Option String × Option (List ChatMessage) =>
          Notification.Completed p.1 p.2.1 p.2.2) (isTextFor e)
        _ (fun x => rfl),
      filter_map_notif_nil
        (fun p : Entity × String =>
          Notification.Failed p.1 p.2) (isTextFor e)
        _ (fun x => rfl),
      List.append_nil, List.append_nil, List.append_nil]
    rw [List.filter_map]
    rw [show (isTextFor e ∘ fun x : Entity =>
          Notification.TextAppended x
            (deltaConcat x (queue.take MAX_PER_FRAME)))
        = (fun x : Entity => decide (x = e)) from rfl]
    rw [nodup_filter_eq_single _
      (deltaEntities_nodup (queue.take MAX_PER_FRAME)) e]
    by_cases hmem : e ∈ deltaEntities (queue.take MAX_PER_FRAME)
    · rw [if_pos hmem, if_pos ((mem_deltaEntities e _).mp hmem)]
      rfl
    · rw [if_neg hmem,
        if_neg (fun hc => hmem ((mem_deltaEntities e _).mpr hc))]
      rfl
  · exact drain_filter_tool queue
  · exact drain_filter_done queue
  · exact drain_filter_err queue
  · intro i j e s f m hi hj
    rw [hD] at hi hj
    exact textIdx_lt_doneIdx _ _ _ _
      (forall_mem_map_notif
        (fun p : Entity × List ToolCall =>
          Notification.ToolCallsReceived p.1 p.2) isTextNotif _
        (fun x => rfl))
      (forall_mem_map_notif
        (fun p : Entity × Option String × Option (List ChatMessage) =>
          Notification.Completed p.1 p.2.1 p.2.2) isTextNotif _
        (fun x => rfl))
      (forall_mem_map_notif
        (fun p : Entity × String => Notification.Failed p.1 p.2) isTextNotif _
        (fun x => rfl))
      (forall_mem_map_notif
        (fun x : Entity => Notification.TextAppended x
          (deltaConcat x (queue.take MAX_PER_FRAME))) isDoneNotif _
        (fun x => rfl))
      (forall_mem_map_notif
        (fun p : Entity × List ToolCall =>
          Notification.ToolCallsReceived p.1 p.2) isDoneNotif _
        (fun x => rfl))
      i j _ _ hi rfl hj rfl

/-- Witness for C8: three deltas of one handle coalesce into one
`TextAppended` preceding the handle's `Completed` (scenario B's drain
step). -/
theorem drain_groups_witness :
    ((drain_stream_inbox
        [StreamMsg.Delta 7 "Hel", StreamMsg.Delta 7 "lo wo",
         StreamMsg.Delta 7 "rld!",
         StreamMsg.Done 7 (some "Hello world!") none]).1).filter
        (isTextFor 7) =
      [Notification.TextAppended 7 "Hello world!"] := by
  have h := (drain_groups_deltas_per_handle
    [StreamMsg.Delta 7 "Hel", StreamMsg.Delta 7 "lo wo",
     StreamMsg.Delta 7 "rld!",
     StreamMsg.Done 7 (some "Hello world!") none]).1 7
  exact h.trans (by decide)

/-! ## Claim C10: notifications are grouped by kind; Begin is silent -/

theorem foldl_accMsg_filter_begin (ms : List StreamMsg) (acc : DrainAcc) :
    (ms.filter (fun m => !(isBeginMsg m))).foldl accMsg acc =
      ms.foldl accMsg acc := by
  induction ms generalizing acc with
  | nil => rfl
  | cons m ms ih =>
    cases m with
    | Begin x =>
      rw [List.filter_cons_of_neg (by simp [isBeginMsg])]
      exact ih acc
    | Delta a t =>
      rw [List.filter_cons_of_pos (by simp [isBeginMsg])]
      exact ih _
    | Tool x c =>
      rw [List.filter_cons_of_pos (by simp [isBeginMsg])]
      exact ih _
    | Done x f mem =>
      rw [List.filter_cons_of_pos (by simp [isBeginMsg])]
      exact ih _
    | Err x s =>
      rw [List.filter_cons_of_pos (by simp [isBeginMsg])]
      exact ih _

/-- `Begin` messages leave the aggregation untouched. -/
theorem aggregateDrained_filter_begin (ms : List StreamMsg) :
    aggregateDrained (ms.filter (fun m => !(isBeginMsg m))) =
      aggregateDrained ms := by
  dsimp only [aggregateDrained]
  simp only [foldl_accMsg_filter_begin]

/-- **C10.** Within a single drain invocation, notifications are emitted
grouped by kind — all `TextAppended`, then all `ToolCallsReceived`, then
all `Completed`, then all `Failed` — regardless of the arrival order of
the underlying inbox messages; `Begin` messages yield no notification at
all (dropping them changes nothing for a queue within the drain cap); and
in particular a `Tool` message that arrived before a `Delta` of the same
handle is still notified after that handle's single `TextAppended`. -/
theorem drain_notifications_grouped_by_kind (queue : List StreamMsg) :
    ((drain_stream_inbox queue).1 =
      ((drain_stream_inbox queue).1).filter isTextNotif
        ++ ((drain_stream_inbox queue).1).filter isToolNotif
        ++ ((drain_stream_inbox queue).1).filter isDoneNotif
        ++ ((drain_stream_inbox queue).1).filter isErrNotif) ∧
    (queue.length ≤ MAX_PER_FRAME →
      (drain_stream_inbox queue).1 =
        (drain_stream_inbox
          (queue.filter (fun m => !(isBeginMsg m)))).1) ∧
    ((drain_stream_inbox
        [StreamMsg.Tool 5 ["c"], StreamMsg.Delta 5 "x",
         StreamMsg.Done 5 none none]).1 =
      [Notification.TextAppended 5 "x",
       Notification.ToolCallsReceived 5 ["c"],
       Notification.Completed 5 none none]) := by
  refine ⟨?_, ?_, ?_⟩
  · rw [drain_filter_text, drain_filter_tool, drain_filter_done,
      drain_filter_err, drain_fst, aggregateDrained_eq]
  · intro hlen
    rw [drain_fst, drain_fst]
    rw [List.take_of_length_le hlen,
      List.take_of_length_le (le_trans (List.length_filter_le _ _) hlen)]
    exact (aggregateDrained_filter_begin queue).symm
  · decide

/-- Witness for C10: a `Begin` message in a small queue yields no
notification — draining with or without it is identical. -/
theorem drain_grouped_witness :
    (drain_stream_inbox [StreamMsg.Begin 3, StreamMsg.Delta 3 "hi",
        StreamMsg.Done 3 (some "hi") none]).1 =
      (drain_stream_inbox ([StreamMsg.Begin 3, StreamMsg.Delta 3 "hi",
        StreamMsg.Done 3 (some "hi") none].filter
          (fun m => !(isBeginMsg m)))).1 :=
  (drain_notifications_grouped_by_kind [StreamMsg.Begin 3,
    StreamMsg.Delta 3 "hi", StreamMsg.Done 3 (some "hi") none]).2.1
    (by decide)

end BevyLlm
